import Mathlib

/-!
# Verification of `yasa/others.py`

Shallow embedding of the four public helpers of `yasa/others.py` —
`moving_transform`, `trimbothstd`, `sliding_window`, `get_centered_indices` —
and proofs settling the frozen claims about them.

Modelling conventions:
* numpy float64 arithmetic is modelled by exact rational arithmetic (`ℚ`);
  `.astype(int)` / Python `int(...)` is truncation toward zero (`npTrunc`);
  `np.floor` on an exact ratio is `Int.floor`.
* a Python call's outcome is `Except NpError v`: `.error` when the call raises
  (an `assert` failure or a numpy `ValueError`), `.ok v` when it returns `v`.
* numpy's NaN, which can be produced and *returned* (it is not an exception),
  is modelled by `none` in an `Option` payload.
* 1-D arrays are `List`s; a 2-D array enters only through its shape/strides
  (all the claims need of it).
-/

namespace Yasa

/-- numpy's `.astype(int)` and Python's `int(...)`: truncation toward zero
(floor for non-negative values, ceiling for negative ones). -/
def npTrunc (q : ℚ) : ℤ := if q < 0 then ⌈q⌉ else ⌊q⌋

/-- Python slice `x[a:b]` for non-negative bounds: elements `a, …, b-1`,
empty when `b ≤ a`, truncated at the end of the list. -/
def pySlice (x : List ℚ) (a b : ℕ) : List ℚ := (x.drop a).take (b - a)

/-- numpy raises `ValueError` for some misuse (e.g. `np.apply_along_axis`
on an empty iteration dimension). -/
inductive NpError
  | valueError
deriving DecidableEq

instance {ε α : Type} [DecidableEq ε] [DecidableEq α] : DecidableEq (Except ε α) :=
  fun x y =>
    match x, y with
    | .error e, .error f => decidable_of_iff (e = f) (by simp)
    | .ok a, .ok b => decidable_of_iff (a = b) (by simp)
    | .error _, .ok _ => isFalse (by simp)
    | .ok _, .error _ => isFalse (by simp)

/-! ## `moving_transform` (src/yasa/others.py lines 12-141)

Only the pieces the claims need: the time grid, the clamped window bounds,
the reported time vector, and the output vector for `method='mean'`. -/

/-- The scalar parameters of a `moving_transform` call: `n = x.size`,
sampling rate `sf`, window and step durations in seconds. -/
structure MT where
  n : ℕ
  sf : ℚ
  window : ℚ
  step : ℚ

/-- Line 69-70: `if step == 0: step = 1 / sf`. -/
def MT.step' (p : MT) : ℚ := if p.step = 0 then 1 / p.sf else p.step

/-- Line 72: `halfdur = window / 2`. -/
def MT.halfdur (p : MT) : ℚ := p.window / 2

/-- Line 74: `total_dur = n / sf`. -/
def MT.total_dur (p : MT) : ℚ := p.n / p.sf

/-- Line 75: `last = n - 1`. -/
def MT.last (p : MT) : ℤ := (p.n : ℤ) - 1

/-- Line 76: `idx = np.arange(0, total_dur, step)` has
`ceil((stop - start) / step)` elements (0 when that is negative). -/
def MT.gridLen (p : MT) : ℕ := (⌈p.total_dur / p.step'⌉).toNat

/-- The `i`-th grid point `i * step` of `np.arange(0, total_dur, step)`. -/
def MT.gridPt (p : MT) (i : ℕ) : ℚ := i * p.step'

/-- Lines 80, 82: `beg = ((idx - halfdur) * sf).astype(int)`, then
`beg[beg < 0] = 0`. -/
def MT.beg (p : MT) (i : ℕ) : ℤ := max 0 (npTrunc ((p.gridPt i - p.halfdur) * p.sf))

/-- Lines 81, 83: `end = ((idx + halfdur) * sf).astype(int)`, then
`end[end > last] = last`. -/
def MT.end' (p : MT) (i : ℕ) : ℤ := min (npTrunc ((p.gridPt i + p.halfdur) * p.sf)) p.last

/-- Line 87: `t = np.column_stack((beg, end)).mean(1) / sf`, i.e. the `i`-th
reported time is `(beg[i] + end[i]) / 2 / sf`. -/
def MT.time (p : MT) (i : ℕ) : ℚ := ((p.beg i + p.end' i : ℤ) : ℚ) / 2 / p.sf

/-- The whole reported time vector `t`. -/
def MT.times (p : MT) : List ℚ := (List.range p.gridLen).map p.time

/-- Model of `np.mean` of a 1-D array: sum over size.  For an empty array numpy
emits NaN; with Lean's `0 / 0 = 0` convention the model yields `0` there
(either value differs from every sample of a non-zero constant buffer,
which is all the claims use of the empty case). -/
def npMean (l : List ℚ) : ℚ := l.sum / l.length

/-- Line 129/132's slice `x[beg[i]:end[i]]` (both bounds are non-negative
there whenever `window ≥ 0`, see `MT.beg`/`MT.end'`). -/
def MT.sliceOf (p : MT) (x : List ℚ) (i : ℕ) : List ℚ :=
  pySlice x (p.beg i).toNat (p.end' i).toNat

/-- Lines 89-91 and 130-132 for `method='mean'`: the output vector
`out[i] = np.mean(x[beg[i]:end[i]])`. -/
def MT.meanOut (p : MT) (x : List ℚ) : List ℚ :=
  (List.range p.gridLen).map (fun i => npMean (p.sliceOf x i))

/-! ## `trimbothstd` (src/yasa/others.py lines 171-201)

`np.partition(x, (lowercut, uppercut - 1))` followed by the slice
`[lowercut:uppercut]` yields a sub-array whose *multiset* of values equals
that of the same slice of the fully sorted array, and `np.std` is invariant
under reordering; the model therefore sorts (`List.insertionSort`) and
slices.  The final `np.sqrt` is omitted: the model returns the *square* of
the code's return value, `sum((v - mean)²) / (k - 1)`.  Since `√` is
injective on non-negative reals (and maps NaN to NaN), every claimed
equality/failure of standard deviations holds iff it holds at this squared
level. -/

/-- Model of `np.std(a, ddof=1) ** 2`: the sample variance with denominator
`len - 1`.  With fewer than 2 samples numpy's division `0 / 0` produces
NaN (plus a `RuntimeWarning`, which is not an exception): modelled as
`none`. -/
def npStdSqDdof1 (l : List ℚ) : Option ℚ :=
  if l.length < 2 then none
  else some ((l.map (fun v => (v - npMean l) ^ 2)).sum / ((l.length : ℚ) - 1))

/-- Line 197: `lowercut = int(cut * n)`. -/
def lowercut (cut : ℚ) (n : ℕ) : ℕ := (npTrunc (cut * n)).toNat

/-- Lines 199-200: the values kept after trimming — the slice
`[lowercut : uppercut]` of the data arranged by value (`np.partition` at
`(lowercut, uppercut - 1)` puts the same multiset in that slice as a full
sort does, and the only consumer, `np.std`, is order-invariant). -/
def keptSlice (x : List ℚ) (cut : ℚ) : List ℚ :=
  pySlice (x.insertionSort (· ≤ ·)) (lowercut cut x.length)
    (x.length - lowercut cut x.length)

/-- Lines 195-201 of `trimbothstd`, at the squared level (see above):
keep the slice `[lowercut : n - lowercut]` of the data arranged by value,
return the ddof-1 variance of the kept values. -/
def trimbothstdSq (x : List ℚ) (cut : ℚ) : Option ℚ :=
  npStdSqDdof1 (keptSlice x cut)

/-- Model of numpy's validation of a `kth` partition index against the
array length: `kth` is legal iff `-n ≤ kth ≤ n - 1` (negative values
count from the end); an illegal one makes `np.partition` raise
`ValueError: kth out of bounds`. -/
def kthValid (n : ℕ) (kth : ℤ) : Bool := -(n : ℤ) ≤ kth && kth ≤ (n : ℤ) - 1

/-- The outcome of a `trimbothstd` call.  Line 199's
`np.partition(atmp, (lowercut, uppercut - 1))` validates both kth indices
against the array length and raises `ValueError` when one lies outside
`[-n, n-1]`; that happens exactly when `lowercut < 0` (then
`uppercut - 1 = n - lowercut - 1 ≥ n`) or `lowercut > n - 1` (e.g. the
empty buffer, where no kth is legal).  On the non-raising path both kths
lie in `[0, n-1]`, so the subsequent slice is the plain non-negative one
modelled by `trimbothstdSq`, and the call returns its value (`none` for a
returned NaN). -/
def trimbothstdRun (x : List ℚ) (cut : ℚ) : Except NpError (Option ℚ) :=
  if kthValid x.length (npTrunc (cut * x.length))
      && kthValid x.length ((x.length : ℤ) - npTrunc (cut * x.length) - 1)
    then .ok (trimbothstdSq x cut)
    else .error .valueError

/-! ## `sliding_window` (src/yasa/others.py lines 204-277)

The claims are about the window count (line 267), the strided view's
elements (lines 271-275) and the time vector (line 276).  `window` and
`step` below are already in samples (the code's lines 250-260 convert
seconds to samples and assert whole numbers). -/

/-- Line 267-268: `np.floor(shape[axis] / step - window / step + 1)
.astype(int)`, with the ratio exact. -/
def n_windows (extent window step : ℕ) : ℤ :=
  ⌊(extent : ℚ) / step - (window : ℚ) / step + 1⌋

/-- Lines 266-269: the output shape — `shape` with entry `axis` replaced by
`n_windows`, then `window` appended as a new trailing axis. -/
def swShape (shape : List ℕ) (axis : ℕ) (window step : ℕ) : List ℤ :=
  (shape.map (Nat.cast)).set axis (n_windows (shape.getD axis 0) window step)
    ++ [(window : ℤ)]

/-- Line 276: `t = np.arange(strided.shape[-2]) * (step / sf)`.
The new shape has `ndim + 1` entries, so `[-2]` is entry `ndim - 1`. -/
def swTimes (shape : List ℕ) (axis : ℕ) (window step : ℕ) (sf : ℚ) : List ℚ :=
  (List.range ((swShape shape axis window step).getD (shape.length - 1) 0).toNat).map
    (fun k : ℕ => (k : ℚ) * ((step : ℚ) / sf))

/-- `Σ strideⱼ · ixⱼ`: the flat element offset `np.lib.stride_tricks
.as_strided` reads at multi-index `ix`, for strides in element units. -/
def dotProd : List ℕ → List ℕ → ℕ
  | a :: as, b :: bs => a * b + dotProd as bs
  | _, _ => 0

/-- The element of an `as_strided` view of 1-D `data` at multi-index `ix`:
the flat datum at offset `Σ strideⱼ · ixⱼ`. -/
def asStridedGet (data : List ℚ) (strides ix : List ℕ) : ℚ :=
  data.getD (dotProd strides ix) 0

/-- Lines 271-273 for 1-D data (element stride 1): the new strides are
`[step * 1, 1]`. -/
def sw1Strides (step : ℕ) : List ℕ := [step, 1]

/-- The window count for 1-D data, as the (non-negative, given the
asserted preconditions) value of `n_windows`. -/
def sw1NW (n window step : ℕ) : ℕ := (n_windows n window step).toNat

/-- Row `i` of the strided view of 1-D `data`: the `window` elements at
multi-indices `(i, 0), …, (i, window-1)`. -/
def sw1Row (data : List ℚ) (window step i : ℕ) : List ℚ :=
  (List.range window).map (fun j => asStridedGet data (sw1Strides step) [i, j])

/-! ## `get_centered_indices` (src/yasa/others.py lines 280-350)

`npts_before`/`npts_after` are taken as naturals (lines 328-333 assert
integer-valued inputs and cast).  `data` enters only through its length
`n = data.shape[0]`. -/

/-- Line 339-341: `rng(x) = np.arange(x - npts_before, x + npts_after + 1)`,
the candidate row for an event at sample `x`. -/
def rng (npts_before npts_after : ℕ) (x : ℤ) : List ℤ :=
  (List.range (npts_before + npts_after + 1)).map
    (fun j => x - npts_before + j)

/-- Line 346: a row survives `mask_rows (masked_outside (idx_ep, 0,
data.shape[0]))` iff every element lies in `[0, n]` — the code's upper
bound is `data.shape[0] = n` *inclusive*, not `n - 1`. -/
def rowInBounds (n : ℕ) (row : List ℤ) : Bool :=
  row.all (fun e => 0 ≤ e && e ≤ (n : ℤ))

/-- Lines 343-350.  `np.apply_along_axis` (line 344) raises
`ValueError: Cannot apply_along_axis when any iteration dimensions are 0`
when `idx` is empty.  Otherwise:
* `idx_ep` (line 349, `compress_rows`) keeps, in order, the rows all of
  whose entries are in `[0, n]`;
* `idx_nomask` (line 348, `unique(idx_ep.nonzero()[0])`) lists, in
  increasing order, the positions of the unmasked rows that contain at
  least one *non-zero* entry — `nonzero` drops zero-valued elements, so an
  all-zero row is absent. -/
def get_centered_indices (n : ℕ) (idx : List ℤ) (npts_before npts_after : ℕ) :
    Except NpError (List (List ℤ) × List ℕ) :=
  if idx = [] then .error .valueError
  else
    let rows := idx.map (rng npts_before npts_after)
    let idx_ep := rows.filter (rowInBounds n)
    let idx_nomask :=
      (rows.enum.filter (fun p => rowInBounds n p.2 && p.2.any (fun e => e != 0))).map
        (fun p => p.1)
    .ok (idx_ep, idx_nomask)

/-! ## Shared helper lemmas -/

/-- Helper: the exact-ratio window-count formula of line 267 equals the naive
enumeration count `(extent - window) / step + 1` whenever the asserted
preconditions hold. -/
theorem n_windows_closed_form (extent window step : ℕ) (hs : 1 ≤ step)
    (hw : window ≤ extent) :
    n_windows extent window step = (((extent - window) / step + 1 : ℕ) : ℤ) := by
  unfold n_windows
  have hstep : ((step : ℚ)) ≠ 0 := Nat.cast_ne_zero.mpr (by omega)
  have hcast : (extent : ℚ) / step - (window : ℚ) / step
      = ((extent - window : ℕ) : ℚ) / step := by
    rw [Nat.cast_sub hw, sub_div]
  rw [hcast, show ((extent - window : ℕ) : ℚ) / (step : ℕ) + 1
        = ((extent - window : ℕ) : ℚ) / (step : ℕ) + (1 : ℤ) by norm_num,
    Int.floor_add_int, Rat.floor_natCast_div_natCast]
  push_cast
  ring

/-- Helper: reading entry `k` of a map over `List.range m`. -/
theorem getD_range_map (f : ℕ → ℚ) (m k : ℕ) (hk : k < m) :
    ((List.range m).map f).getD k 0 = f k := by
  rw [List.getD_eq_getElem _ _ (by simpa using hk)]
  simp

/-- Helper: `np.std(·, ddof=1)` (squared) only depends on the multiset of
values. -/
theorem npStdSqDdof1_congr_perm {l₁ l₂ : List ℚ} (h : l₁.Perm l₂) :
    npStdSqDdof1 l₁ = npStdSqDdof1 l₂ := by
  have hlen := h.length_eq
  have hmean : npMean l₁ = npMean l₂ := by rw [npMean, npMean, h.sum_eq, hlen]
  rw [npStdSqDdof1, npStdSqDdof1, hlen, hmean,
    (h.map (fun v => (v - npMean l₂) ^ 2)).sum_eq]

/-- Helper: the length of the kept slice is `n - 2 * lowercut`. -/
theorem keptSlice_length (x : List ℚ) (cut : ℚ) :
    (keptSlice x cut).length = x.length - 2 * lowercut cut x.length := by
  simp [keptSlice, pySlice, List.length_insertionSort]
  omega


/-- Helper: on non-negative arguments, truncation toward zero is the floor. -/
theorem npTrunc_of_nonneg {q : ℚ} (h : 0 ≤ q) : npTrunc q = ⌊q⌋ :=
  if_neg (not_lt.mpr h)

/-- Helper: truncation toward zero of a non-negative value is non-negative. -/
theorem npTrunc_nonneg {q : ℚ} (h : 0 ≤ q) : 0 ≤ npTrunc q := by
  rw [npTrunc_of_nonneg h]
  exact Int.floor_nonneg.mpr h

/-- Helper: truncation toward zero is monotone. -/
theorem npTrunc_mono {a b : ℚ} (h : a ≤ b) : npTrunc a ≤ npTrunc b := by
  unfold npTrunc
  by_cases ha : a < 0 <;> by_cases hb : b < 0 <;> simp [ha, hb]
  · exact Int.ceil_le_ceil h
  · exact le_trans (by exact_mod_cast Int.ceil_le.mpr ha.le) (Int.floor_nonneg.mpr (not_lt.mp hb))
  · exact absurd (lt_of_le_of_lt h hb) ha
  · exact Int.floor_le_floor h

/-- Helper: a negative truncation means the value is at most `-1`. -/
theorem npTrunc_neg_le {q : ℚ} (h : npTrunc q < 0) : q ≤ -1 := by
  unfold npTrunc at h
  by_cases hq : q < 0
  · rw [if_pos hq] at h
    have h1 : ⌈q⌉ ≤ -1 := by omega
    exact_mod_cast Int.ceil_le.mp h1
  · rw [if_neg hq] at h
    exact absurd (Int.floor_nonneg.mpr (not_lt.mp hq)) (by omega)

/-- Helper: with `0 ≤ cut < 1` and a non-empty buffer, both kth indices
of line 199's partition are in bounds (`0 ≤ lowercut ≤ n - 1` and
`0 ≤ uppercut - 1 ≤ n - 1`), so the `trimbothstd` call returns. -/
theorem trimbothstdRun_ok (x : List ℚ) (cut : ℚ) (hc0 : 0 ≤ cut) (hc1 : cut < 1)
    (hn : 1 ≤ x.length) :
    trimbothstdRun x cut = .ok (trimbothstdSq x cut) := by
  have hn0 : (0 : ℚ) < (x.length : ℚ) := by exact_mod_cast hn
  have harg0 : 0 ≤ cut * (x.length : ℚ) := mul_nonneg hc0 hn0.le
  have hlt : cut * (x.length : ℚ) < (x.length : ℚ) := by
    calc cut * (x.length : ℚ) < 1 * (x.length : ℚ) := mul_lt_mul_of_pos_right hc1 hn0
      _ = (x.length : ℚ) := one_mul _
  have hlc0 : 0 ≤ npTrunc (cut * (x.length : ℚ)) := npTrunc_nonneg harg0
  have hlcn : npTrunc (cut * (x.length : ℚ)) ≤ (x.length : ℤ) - 1 := by
    rw [npTrunc_of_nonneg harg0]
    have := Int.floor_lt.mpr
      (show cut * (x.length : ℚ) < ((x.length : ℤ) : ℚ) by exact_mod_cast hlt)
    omega
  have hcond : (kthValid x.length (npTrunc (cut * x.length)) &&
      kthValid x.length ((x.length : ℤ) - npTrunc (cut * x.length) - 1)) = true := by
    simp only [kthValid, Bool.and_eq_true, decide_eq_true_eq]
    omega
  rw [trimbothstdRun, if_pos hcond]

/-- Helper: on an empty buffer line 199's partition has no legal kth index
(`lowercut = 0 > n - 1 = -1`), so the `trimbothstd` call raises
`ValueError`, whatever `cut` is. -/
theorem trimbothstdRun_empty (x : List ℚ) (cut : ℚ) (h : x.length = 0) :
    trimbothstdRun x cut = .error .valueError := by
  have h0 : npTrunc (cut * (x.length : ℚ)) = 0 := by
    rw [h]
    norm_num [npTrunc]
  rw [trimbothstdRun, h0, h]
  norm_num [kthValid]

/-- Helper: when the grid is non-empty, the effective step is positive. -/
theorem MT.step'_pos (p : MT) (hsf : 0 < p.sf) (h : 0 < p.gridLen) : 0 < p.step' := by
  rw [MT.step']
  by_cases hz : p.step = 0
  · rw [if_pos hz]
    positivity
  · rw [if_neg hz]
    by_contra hle
    have hstep : p.step < 0 := lt_of_le_of_ne (not_lt.mp hle) hz
    have htd : 0 ≤ p.total_dur := by
      rw [MT.total_dur]
      positivity
    have hratio : p.total_dur / p.step' ≤ 0 := by
      rw [MT.step', if_neg hz]
      exact div_nonpos_iff.mpr (Or.inl ⟨htd, hstep.le⟩)
    have hceil : ⌈p.total_dur / p.step'⌉ ≤ 0 := Int.ceil_le.mpr (by exact_mod_cast hratio)
    rw [MT.gridLen] at h
    omega

/-- Helper: grid points lie in `[0, total_dur)`, so `gridPt i * sf < n`. -/
theorem MT.gridPt_bounds (p : MT) (hsf : 0 < p.sf) (i : ℕ) (hi : i < p.gridLen) :
    0 ≤ p.gridPt i ∧ p.gridPt i * p.sf < p.n := by
  have hpos : 0 < p.step' := p.step'_pos hsf (by omega)
  have h0 : 0 ≤ p.gridPt i := by
    rw [MT.gridPt]
    positivity
  refine ⟨h0, ?_⟩
  rw [MT.gridLen] at hi
  have hcast : (i : ℤ) < ⌈p.total_dur / p.step'⌉ := by omega
  have hlt : (i : ℚ) < p.total_dur / p.step' := by exact_mod_cast Int.lt_ceil.mp hcast
  have ht : p.gridPt i < p.total_dur := by
    rw [MT.gridPt]
    calc (i : ℚ) * p.step' < p.total_dur / p.step' * p.step' := by
          exact mul_lt_mul_of_pos_right hlt hpos
      _ = p.total_dur := div_mul_cancel₀ _ (ne_of_gt hpos)
  calc p.gridPt i * p.sf < p.total_dur * p.sf := mul_lt_mul_of_pos_right ht hsf
    _ = (p.n : ℚ) := by
        rw [MT.total_dur]
        field_simp

/-- Helper: with `n ≥ 2` and `window * sf ≥ 2`, every clamped window of
`moving_transform` is non-degenerate: `0 ≤ beg i < end' i ≤ last`. -/
theorem MT.beg_lt_end (p : MT) (hn : 2 ≤ p.n) (hsf : 0 < p.sf)
    (hws : 2 ≤ p.window * p.sf) (i : ℕ) (hi : i < p.gridLen) :
    0 ≤ p.beg i ∧ p.beg i < p.end' i ∧ p.end' i ≤ p.last := by
  obtain ⟨ht0, htn⟩ := p.gridPt_bounds hsf i hi
  set t := p.gridPt i with htdef
  have hhs : 1 ≤ p.halfdur * p.sf := by
    rw [MT.halfdur]
    linarith
  have hlast : (1 : ℤ) ≤ p.last := by
    rw [MT.last]
    omega
  have hend1 : 1 ≤ p.end' i := by
    rw [MT.end', ← htdef]
    have harg : (1 : ℚ) ≤ (t + p.halfdur) * p.sf := by
      have : 0 ≤ t * p.sf := mul_nonneg ht0 hsf.le
      calc (1 : ℚ) ≤ p.halfdur * p.sf := hhs
        _ ≤ t * p.sf + p.halfdur * p.sf := by linarith
        _ = (t + p.halfdur) * p.sf := by ring
    have : (1 : ℤ) ≤ npTrunc ((t + p.halfdur) * p.sf) := by
      rw [npTrunc_of_nonneg (by linarith)]
      exact Int.le_floor.mpr (by exact_mod_cast harg)
    omega
  refine ⟨le_max_left _ _, ?_, min_le_right _ _⟩
  by_cases hA : npTrunc ((t - p.halfdur) * p.sf) ≤ 0
  · have hbeg0 : p.beg i = 0 := by
      rw [MT.beg, ← htdef]
      omega
    rw [hbeg0]
    omega
  · push_neg at hA
    have hargA : 0 ≤ (t - p.halfdur) * p.sf := by
      by_contra hneg
      push_neg at hneg
      have hceil : npTrunc ((t - p.halfdur) * p.sf) ≤ 0 := by
        unfold npTrunc
        rw [if_pos hneg]
        exact Int.ceil_le.mpr (by exact_mod_cast hneg.le)
      omega
    have hAfloor : npTrunc ((t - p.halfdur) * p.sf) = ⌊(t - p.halfdur) * p.sf⌋ :=
      npTrunc_of_nonneg hargA
    have hbegA : p.beg i = ⌊(t - p.halfdur) * p.sf⌋ := by
      rw [MT.beg, ← htdef, hAfloor]
      rw [hAfloor] at hA
      omega
    have hfloor_t : ⌊t * p.sf⌋ ≤ p.last := by
      rw [MT.last]
      have := Int.floor_le_floor (le_of_lt htn)
      rw [Int.floor_natCast] at this
      have hlt : ⌊t * p.sf⌋ < (p.n : ℤ) := Int.floor_lt.mpr (by exact_mod_cast htn)
      omega
    have hA_le : ⌊(t - p.halfdur) * p.sf⌋ ≤ p.last - 1 := by
      have harg_le : (t - p.halfdur) * p.sf ≤ t * p.sf - 1 := by
        have : (t - p.halfdur) * p.sf = t * p.sf - p.halfdur * p.sf := by ring
        linarith
      calc ⌊(t - p.halfdur) * p.sf⌋ ≤ ⌊t * p.sf - 1⌋ := Int.floor_le_floor harg_le
        _ = ⌊t * p.sf⌋ - 1 := by
            rw [show t * p.sf - 1 = t * p.sf + (-1 : ℤ) by push_cast; ring,
              Int.floor_add_int]
            omega
        _ ≤ p.last - 1 := by omega
    have hB_ge : ⌊(t - p.halfdur) * p.sf⌋ + 2 ≤ npTrunc ((t + p.halfdur) * p.sf) := by
      rw [npTrunc_of_nonneg (by nlinarith)]
      apply Int.le_floor.mpr
      push_cast
      have hfl : (⌊(t - p.halfdur) * p.sf⌋ : ℚ) ≤ (t - p.halfdur) * p.sf :=
        Int.floor_le _
      nlinarith
    rw [hbegA, MT.end', ← htdef]
    omega

/-! ## Claim theorems -/

/-- Claim C1 (code-bug evidence).  The claim says a row is kept iff every
element lies in `[0, n-1]`.  Line 346 of the code instead masks with
`np.ma.masked_outside(idx_ep, 0, data.shape[0])`, whose upper bound is
`n = len(data)` *inclusive*: with `n = 100`, `idx = [98]`, `before = 3`,
`after = 2`, the row `[95..100]` contains `100 = n`, which is outside
`[0, 99]`, yet the code keeps the full row (and `data[idx_ep]`, as in the
function's own docstring example, would raise `IndexError`).  The claim
(and the code's docstring, which promises that out-of-bounds indices are
removed) is right; the code is off by one. -/
theorem C1_row_reaching_n_is_kept :
    get_centered_indices 100 [98] 3 2 = .ok ([[95, 96, 97, 98, 99, 100]], [0]) := by
  decide

/-- Claim C2 (code-bug evidence).  The claim (and the docstring: `idx_ep`
has shape `(len(idx_nomask), ...)`) says the kept-row matrix and the
kept-position vector always correspond.  But line 348 computes the kept
positions with `idx_ep.nonzero()`, which drops *zero-valued* elements: for
`idx = [0]` with `npts_before = npts_after = 0` the (valid, kept) row is
`[0]`, all of whose entries are the value `0`, so its row index never
appears in `nonzero()` — the code returns a 1-row matrix and an *empty*
position vector. -/
theorem C2_row_counts_mismatch :
    get_centered_indices 5 [0] 0 0 = .ok ([[0]], []) ∧
      ([[(0 : ℤ)]] : List (List ℤ)).length ≠ ([] : List ℕ).length := by
  decide

/-- Claim C9 (counterexample).  The claim says an empty event list yields
empty results without raising; in fact line 344's `np.apply_along_axis`
raises `ValueError: Cannot apply_along_axis when any iteration dimensions
are 0` whenever `idx` is empty, so the call fails instead of returning
`([], [])`. -/
theorem C9_empty_idx_raises :
    get_centered_indices 100 [] 3 2 = .error .valueError := by decide

/-- Claim C9 (amended).  For every buffer length and spans,
`get_centered_indices` with an empty event list raises (numpy
`ValueError` from `apply_along_axis`), rather than returning an empty
matrix and an empty kept-index list. -/
theorem C9_empty_idx_always_raises (n npts_before npts_after : ℕ) :
    get_centered_indices n [] npts_before npts_after = .error .valueError := rfl

/-- Claim C4 (confirmed).  The number of windows is the floor of the exact
ratio `extent/step - window/step + 1` (the code floors the same expression
computed in float64, which can only differ on ratios far beyond any
realistic buffer size; the modal "may under-count by one" is about that
float rounding and is not contradicted here).  Under the code's asserted
preconditions (`step >= 1`, `window < extent` — `window ≤ extent`
suffices) the formula equals the naive enumeration count
`(extent - window) / step + 1`. -/
theorem C4_window_count (extent window step : ℕ) (hs : 1 ≤ step)
    (hw : window ≤ extent) :
    n_windows extent window step
        = ⌊(extent : ℚ) / step - (window : ℚ) / step + 1⌋ ∧
      n_windows extent window step = (((extent - window) / step + 1 : ℕ) : ℤ) :=
  ⟨rfl, n_windows_closed_form extent window step hs hw⟩

/-- Claim C4 witness: the claim's concrete example — a 1000-sample buffer,
`window = 100` samples, `step = 50` samples — gives 19 windows. -/
theorem C4_window_count_witness :
    ((1 : ℕ) ≤ 50 ∧ (100 : ℕ) ≤ 1000) ∧ n_windows 1000 100 50 = 19 := by
  refine ⟨⟨by decide, by decide⟩, ?_⟩
  have h := (C4_window_count 1000 100 50 (by decide) (by decide)).2
  rw [h]
  decide

/-- Claim C5 (confirmed).  For 1-D data, under the code's asserted
preconditions, the strided view's element `(i, j)` is
`buffer[i * step + j]` (and that index is in bounds), so row `i` of the
view is exactly the sub-sequence `buffer[i*step : i*step + window]`. -/
theorem C5_strided_view_rows (data : List ℚ) (window step i : ℕ)
    (hs : 1 ≤ step) (hw : window < data.length)
    (hi : i < sw1NW data.length window step) :
    sw1Row data window step i = pySlice data (i * step) (i * step + window) ∧
      i * step + window ≤ data.length ∧
      ∀ j, j < window →
        asStridedGet data (sw1Strides step) [i, j] = data.getD (i * step + j) 0 := by
  have hbound : i * step + window ≤ data.length := by
    have hclosed := n_windows_closed_form data.length window step hs hw.le
    rw [sw1NW, hclosed, Int.toNat_natCast] at hi
    have hle : i ≤ (data.length - window) / step := by omega
    have := (Nat.le_div_iff_mul_le (by omega)).mp hle
    omega
  have hidx : ∀ j, dotProd (sw1Strides step) [i, j] = i * step + j := by
    intro j
    simp [sw1Strides, dotProd]
    ring
  refine ⟨?_, hbound, fun j hj => by rw [asStridedGet, hidx j]⟩
  apply List.ext_getElem
  · simp [sw1Row, pySlice]
    omega
  · intro j hj1 hj2
    have hjw : j < window := by simpa [sw1Row] using hj1
    have hjn : i * step + j < data.length := by omega
    simp only [sw1Row, List.getElem_map, List.getElem_range, pySlice,
      List.getElem_take, List.getElem_drop]
    rw [asStridedGet, hidx j, List.getD_eq_getElem _ _ hjn]

/-- Claim C5 witness: `data = [1,2,3,4,5]`, `window = 2`, `step = 2`,
row `i = 1` of the view is `data[2:4] = [3,4]`. -/
theorem C5_strided_view_rows_witness :
    ((1 : ℕ) ≤ 2 ∧ (2 : ℕ) < 5 ∧ 1 < sw1NW 5 2 2) ∧
      (sw1Row [1, 2, 3, 4, 5] 2 2 1 = pySlice [1, 2, 3, 4, 5] (1 * 2) (1 * 2 + 2) ∧
        1 * 2 + 2 ≤ ([1, 2, 3, 4, 5] : List ℚ).length ∧
        ∀ j, j < 2 →
          asStridedGet [1, 2, 3, 4, 5] (sw1Strides 2) [1, j]
            = List.getD [1, 2, 3, 4, 5] (1 * 2 + j) 0) := by
  have hnw : sw1NW 5 2 2 = 2 := by
    have h := n_windows_closed_form 5 2 2 (by decide) (by decide)
    rw [sw1NW, h]
    decide
  have h5 := C5_strided_view_rows [1, 2, 3, 4, 5] 2 2 1 (by decide) (by decide)
    (by show 1 < sw1NW 5 2 2; rw [hnw]; decide)
  exact ⟨⟨by decide, by decide, by rw [hnw]; decide⟩, h5.1, h5.2.1, h5.2.2⟩

/-- Claim C10 (confirmed).  The time vector of `sliding_window` is
`np.arange(strided.shape[-2]) * (step / sf)`: its length is the
second-to-last entry of the new shape.  For 1-D data, and for 2-D data
windowed along the last axis, that entry is the window count; for 2-D data
of shape `(a, b)` windowed along axis 0 it is `b`, the extent of the
*other* axis, not the window count.  Each entry is `k * (step / sf)`. -/
theorem C10_time_vector (n a b window step : ℕ) (sf : ℚ) :
    (swTimes [n] 0 window step sf).length = sw1NW n window step ∧
      (swTimes [a, b] 1 window step sf).length = sw1NW b window step ∧
      (swTimes [a, b] 0 window step sf).length = b ∧
      ∀ (shape : List ℕ) (axis k : ℕ),
        k < (swTimes shape axis window step sf).length →
        (swTimes shape axis window step sf).getD k 0 = k * ((step : ℚ) / sf) := by
  refine ⟨?_, ?_, ?_, ?_⟩
  · simp [swTimes, swShape, sw1NW]
  · simp [swTimes, swShape, sw1NW]
  · simp [swTimes, swShape]
  · intro shape axis k hk
    rw [swTimes] at hk ⊢
    rw [getD_range_map _ _ _ (by simpa using hk)]

/-- Claim C10 witness: a 2-D buffer of shape `(3, 20)`, `window = 5`,
`step = 5` samples, `sf = 5`: along axis 1 the time vector has
`n_windows = 4` entries; along axis 0 it has `20` entries; entry 2 of the
1-D case is `2 * (5/5) = 2`. -/
theorem C10_time_vector_witness :
    ((swTimes [20] 0 5 5 5).length = sw1NW 20 5 5 ∧
        (swTimes [3, 20] 1 5 5 5).length = sw1NW 20 5 5 ∧
        (swTimes [3, 20] 0 5 5 5).length = 20) ∧
      (2 < (swTimes [20] 0 5 5 5).length ∧
        (swTimes [20] 0 5 5 5).getD 2 0 = 2 * ((5 : ℚ) / 5)) := by
  have h := C10_time_vector 20 3 20 5 5 5
  have hnw : sw1NW 20 5 5 = 4 := by
    have hc := n_windows_closed_form 20 5 5 (by decide) (by decide)
    rw [sw1NW, hc]
    decide
  have hlen : (swTimes [20] 0 5 5 5).length = 4 := by rw [h.1, hnw]
  exact ⟨⟨h.1, h.2.1, h.2.2.1⟩,
    by rw [hlen]; decide,
    h.2.2.2 [20] 0 2 (by rw [hlen]; decide)⟩

/-- Claim C7 (confirmed, at the squared level — `np.sqrt` is injective on
the non-negative reals, so equalities of standard deviations hold iff they
hold between the squares).  With `cut ∈ [0,1)` and at least 2 values
remaining: the buffer splits, as a multiset, into `lowercut = ⌊cut·n⌋`
values each `≤` every kept value, the kept slice, and `lowercut` values
each `≥` every kept value (removal by value, deterministic at ties);
the result is the ddof-1 sample variance of the kept slice (denominator
`n_kept - 1`); and with `cut = 0` it is the ordinary ddof-1 sample
variance of the whole buffer. -/
theorem C7_trimbothstd (x : List ℚ) (cut : ℚ) (hc0 : 0 ≤ cut) (hc1 : cut < 1)
    (h2 : 2 ≤ x.length - 2 * lowercut cut x.length) :
    (∃ low high,
        x.Perm (low ++ keptSlice x cut ++ high) ∧
        low.length = lowercut cut x.length ∧
        high.length = lowercut cut x.length ∧
        (∀ a ∈ low, ∀ b ∈ keptSlice x cut, a ≤ b) ∧
        (∀ b ∈ keptSlice x cut, ∀ c ∈ high, b ≤ c)) ∧
      (keptSlice x cut).length = x.length - 2 * lowercut cut x.length ∧
      trimbothstdSq x cut
        = some (((keptSlice x cut).map
              (fun v => (v - npMean (keptSlice x cut)) ^ 2)).sum
            / (((keptSlice x cut).length : ℚ) - 1)) ∧
      trimbothstdSq x 0 = npStdSqDdof1 x := by
  set n := x.length with hn
  set lc := lowercut cut n with hlc
  set sorted := x.insertionSort (· ≤ ·) with hsorted
  have hslen : sorted.length = n := List.length_insertionSort _ x
  have hlcn : 2 * lc + 2 ≤ n := by omega
  have hkept : keptSlice x cut = (sorted.drop lc).take (n - 2 * lc) := by
    rw [keptSlice, pySlice, ← hsorted, ← hn, ← hlc]
    congr 1
    omega
  have hklen : (keptSlice x cut).length = n - 2 * lc := keptSlice_length x cut
  have hsplit : sorted = sorted.take lc ++ (keptSlice x cut ++ sorted.drop (n - lc)) := by
    rw [hkept]
    conv_lhs => rw [← List.take_append_drop lc sorted]
    congr 1
    have hdd : sorted.drop (n - lc) = (sorted.drop lc).drop (n - 2 * lc) := by
      rw [List.drop_drop]
      congr 1
      omega
    rw [hdd, List.take_append_drop]
  have hpairwise : List.Pairwise (· ≤ ·) sorted :=
    List.sorted_insertionSort (· ≤ ·) x
  rw [hsplit] at hpairwise
  have hPW := List.pairwise_append.mp hpairwise
  have hPW2 := List.pairwise_append.mp hPW.2.1
  refine ⟨⟨sorted.take lc, sorted.drop (n - lc), ?_, ?_, ?_, ?_, ?_⟩, hklen, ?_, ?_⟩
  · have hperm : sorted.Perm x := List.perm_insertionSort (· ≤ ·) x
    rw [hsplit] at hperm
    simpa [List.append_assoc] using hperm.symm
  · simp [hslen]
    omega
  · simp [hslen]
    omega
  · intro a ha b hb
    exact hPW.2.2 a ha b (List.mem_append_left _ hb)
  · intro b hb c hc
    exact hPW2.2.2 b hb c hc
  · rw [trimbothstdSq, npStdSqDdof1, if_neg (by omega)]
  · rw [trimbothstdSq]
    have hlc0 : lowercut 0 n = 0 := by
      simp [lowercut, npTrunc]
    have hk0 : keptSlice x 0 = sorted := by
      rw [keptSlice, ← hsorted, ← hn, hlc0]
      simp [pySlice, ← hslen]
    rw [hk0]
    exact npStdSqDdof1_congr_perm (List.perm_insertionSort (· ≤ ·) x)

/-- Claim C7 witness: `x = [1, 2, 3, 4]`, `cut = 1/4` removes the single
lowest and the single highest value; 2 values remain. -/
theorem C7_trimbothstd_witness :
    ((0 : ℚ) ≤ 1 / 4 ∧ (1 : ℚ) / 4 < 1 ∧
        2 ≤ ([1, 2, 3, 4] : List ℚ).length - 2 * lowercut (1 / 4) 4) ∧
      trimbothstdSq [1, 2, 3, 4] 0 = npStdSqDdof1 [1, 2, 3, 4] := by
  have hlc : lowercut (1 / 4) 4 = 1 := by
    have h4 : ((1 : ℚ) / 4) * (4 : ℕ) = 1 := by norm_num
    rw [lowercut, npTrunc, h4, if_neg (by norm_num)]
    norm_num
  have h := C7_trimbothstd [1, 2, 3, 4] (1 / 4) (by norm_num) (by norm_num)
    (by rw [show ([1, 2, 3, 4] : List ℚ).length = 4 from rfl, hlc])
  exact ⟨⟨by norm_num, by norm_num, by rw [show ([1, 2, 3, 4] : List ℚ).length = 4 from rfl, hlc]⟩,
    h.2.2.2⟩

/-- Claim C8 (counterexample).  With `x = [1, 2]` and `cut = 1/2`, zero
values remain after trimming; the claim says the call fails with a
`DomainError`, but here both partition indices are legal and there is no
further failure path: numpy's zero-degrees-of-freedom division emits a
`RuntimeWarning` (not an exception) and the call *returns* NaN
(`.ok none`), never an error. -/
theorem C8_counterexample :
    trimbothstdRun [1, 2] (1 / 2) = .ok none ∧
      ∀ e : NpError, trimbothstdRun [1, 2] (1 / 2) ≠ .error e := by
  have hsq : trimbothstdSq [1, 2] (1 / 2) = none := by
    have hlc : lowercut (1 / 2) 2 = 1 := by
      have h2 : ((1 : ℚ) / 2) * (2 : ℕ) = 1 := by norm_num
      rw [lowercut, npTrunc, h2, if_neg (by norm_num)]
      norm_num
    rw [trimbothstdSq, npStdSqDdof1, if_pos]
    rw [keptSlice_length, show ([1, 2] : List ℚ).length = 2 from rfl, hlc]
    omega
  have hok : trimbothstdRun [1, 2] (1 / 2) = .ok (trimbothstdSq [1, 2] (1 / 2)) :=
    trimbothstdRun_ok [1, 2] (1 / 2) (by norm_num) (by norm_num) (by norm_num)
  refine ⟨by rw [hok, hsq], fun e hc => ?_⟩
  rw [hok] at hc
  exact Except.noConfusion hc

/-- Claim C8 (amended).  With `cut ∈ [0,1)` and fewer than 2 values
remaining after trimming: on a *non-empty* buffer `trimbothstd` raises
nothing — numpy's zero-degrees-of-freedom division emits only a
`RuntimeWarning` and the call returns NaN (`.ok none`), a normally
returned float that is distinguishable from every genuine standard
deviation but is not a `DomainError`; on the *empty* buffer the call does
fail, but with numpy's `ValueError` from `np.partition`'s kth bounds
check — again not a `DomainError`. -/
theorem C8_returns_nan (x : List ℚ) (cut : ℚ) (hc0 : 0 ≤ cut) (hc1 : cut < 1)
    (h : x.length - 2 * lowercut cut x.length < 2) :
    (1 ≤ x.length → trimbothstdRun x cut = .ok none) ∧
      (x.length = 0 → trimbothstdRun x cut = .error .valueError) := by
  constructor
  · intro hn
    rw [trimbothstdRun_ok x cut hc0 hc1 hn, trimbothstdSq, npStdSqDdof1,
      if_pos (by rw [keptSlice_length]; omega)]
  · intro h0
    exact trimbothstdRun_empty x cut h0

/-- Claim C8 witness: the instance `x = [1, 2]`, `cut = 1/2`. -/
theorem C8_returns_nan_witness :
    ((0 : ℚ) ≤ 1 / 2 ∧ (1 : ℚ) / 2 < 1 ∧
        ([1, 2] : List ℚ).length
          - 2 * lowercut (1 / 2) (([1, 2] : List ℚ).length) < 2) ∧
      (1 ≤ ([1, 2] : List ℚ).length →
        trimbothstdRun [1, 2] (1 / 2) = .ok none) := by
  have hlc : lowercut (1 / 2) 2 = 1 := by
    have h2 : ((1 : ℚ) / 2) * (2 : ℕ) = 1 := by norm_num
    rw [lowercut, npTrunc, h2, if_neg (by norm_num)]
    norm_num
  have hh : ([1, 2] : List ℚ).length
      - 2 * lowercut (1 / 2) (([1, 2] : List ℚ).length) < 2 := by
    rw [show ([1, 2] : List ℚ).length = 2 from rfl, hlc]
    omega
  exact ⟨⟨by norm_num, by norm_num, hh⟩,
    (C8_returns_nan [1, 2] (1 / 2) (by norm_num) (by norm_num) hh).1⟩

/-- Claim C3 (counterexample).  The claim quantifies over *every* window
and step duration; but with `n = 4`, `sf = 1`, `window = 1`, `step = 1`
and the constant buffer of value 5, the first grid point gives
`beg = int(-0.5) = 0` (truncation toward zero) and
`end = min(int(0.5), 3) = 0`, so the slice `x[0:0]` is *empty*: numpy's
mean of it is NaN, not 5 (the model's convention renders that entry `0`,
likewise different from 5), so the output vector is not constantly 5. -/
theorem C3_counterexample :
    ¬ ∀ v ∈ (MT.mk 4 1 1 1).meanOut (List.replicate 4 5), v = (5 : ℚ) := by
  intro h
  have h0 : (0 : ℚ) ∈ (MT.mk 4 1 1 1).meanOut (List.replicate 4 5) := by
    refine List.mem_map.mpr ⟨0, List.mem_range.mpr ?_, ?_⟩
    · have h4 : (⌈MT.total_dur ⟨4, 1, 1, 1⟩ / MT.step' ⟨4, 1, 1, 1⟩⌉ : ℤ) = 4 := by
        norm_num [MT.total_dur, MT.step', Int.ceil_eq_iff]
      rw [MT.gridLen, h4]
      norm_num
    · norm_num [MT.sliceOf, MT.beg, MT.end', MT.gridPt, MT.halfdur, MT.step', MT.last,
        npTrunc, npMean, pySlice, Int.ceil_le, Int.floor_eq_iff]
  exact absurd (h 0 h0) (by norm_num)

/-- Claim C3 (amended).  For a constant buffer of value `c` of length
`n ≥ 2`, any `sf > 0`, any step, and any window with `window * sf ≥ 2`
(so that no truncated window slice `x[beg:end]` is empty — for
`window * sf < 2` or `n < 2` a slice can be empty and its numpy mean is
NaN, see the counterexample), every entry of the `method='mean'` output
equals `c`. -/
theorem C3_constant_mean (p : MT) (c : ℚ) (hn : 2 ≤ p.n) (hsf : 0 < p.sf)
    (hws : 2 ≤ p.window * p.sf) :
    ∀ v ∈ p.meanOut (List.replicate p.n c), v = c := by
  intro v hv
  rw [MT.meanOut] at hv
  obtain ⟨i, hi, rfl⟩ := List.mem_map.mp hv
  rw [List.mem_range] at hi
  obtain ⟨hbeg0, hbe, hel⟩ := p.beg_lt_end hn hsf hws i hi
  set a := (p.beg i).toNat with ha
  set b := (p.end' i).toNat with hb
  have hab : a < b := by omega
  have hbn : b ≤ p.n - 1 := by
    rw [MT.last] at hel
    omega
  rw [MT.sliceOf, pySlice, ← ha, ← hb, List.drop_replicate, List.take_replicate]
  have hmin : min (b - a) (p.n - a) = b - a := by omega
  rw [hmin, npMean, List.sum_replicate, List.length_replicate, nsmul_eq_mul]
  have hne : ((b - a : ℕ) : ℚ) ≠ 0 := Nat.cast_ne_zero.mpr (by omega)
  field_simp

/-- Claim C3 witness: `n = 10`, `sf = 1`, `window = 4`, `step = 2`,
constant value 7. -/
theorem C3_constant_mean_witness :
    (2 ≤ (MT.mk 10 1 4 2).n ∧ 0 < (MT.mk 10 1 4 2).sf ∧
        2 ≤ (MT.mk 10 1 4 2).window * (MT.mk 10 1 4 2).sf) ∧
      ∀ v ∈ (MT.mk 10 1 4 2).meanOut (List.replicate 10 7), v = (7 : ℚ) :=
  ⟨⟨by norm_num, by norm_num, by norm_num⟩,
    C3_constant_mean (MT.mk 10 1 4 2) 7 (by norm_num) (by norm_num) (by norm_num)⟩

/-- Claim C6 (counterexample).  With `n = 10`, `sf = 1`, `window = 1`,
`step = 1`: at the first grid point `t = 0` the available margin before
the buffer start is 0 samples and `halfdur * sf = 1/2` exceeds it, so the
claim requires the first output time to be shifted away from the grid
point; but truncation toward zero gives `beg = int(-0.5) = 0` and
`end = int(0.5) = 0` *without* any clamping, and the first reported time
is `(0+0)/2/sf = 0`, exactly the unclamped grid point. -/
theorem C6_counterexample :
    0 < (MT.mk 10 1 1 1).gridLen ∧
      0 < (MT.mk 10 1 1 1).halfdur * (MT.mk 10 1 1 1).sf ∧
      (MT.mk 10 1 1 1).gridPt 0 = 0 ∧
      (MT.mk 10 1 1 1).times.getD 0 0 = (MT.mk 10 1 1 1).gridPt 0 := by
  have hg : (MT.mk 10 1 1 1).gridLen = 10 := by
    have h : (⌈MT.total_dur ⟨10, 1, 1, 1⟩ / MT.step' ⟨10, 1, 1, 1⟩⌉ : ℤ) = 10 := by
      norm_num [MT.total_dur, MT.step', Int.ceil_eq_iff]
    rw [MT.gridLen, h]
    rfl
  have hpt : (MT.mk 10 1 1 1).gridPt 0 = 0 := by simp [MT.gridPt]
  have hbeg : (MT.mk 10 1 1 1).beg 0 = 0 := by
    norm_num [MT.beg, MT.gridPt, MT.halfdur, npTrunc, Int.ceil_le]
  have hend : (MT.mk 10 1 1 1).end' 0 = 0 := by
    have harg : ((MT.mk 10 1 1 1).gridPt 0 + (MT.mk 10 1 1 1).halfdur)
        * (MT.mk 10 1 1 1).sf = 1 / 2 := by
      norm_num [MT.gridPt, MT.halfdur]
    have hf : (⌊(1 : ℚ) / 2⌋ : ℤ) = 0 := by norm_num [Int.floor_eq_iff]
    rw [MT.end', harg, npTrunc_of_nonneg (by norm_num), hf]
    rfl
  refine ⟨by omega, by norm_num [MT.halfdur], hpt, ?_⟩
  rw [MT.times, getD_range_map _ _ 0 (by omega), MT.time, hbeg, hend, hpt]
  norm_num

/-- Claim C6 (amended).  The reported time vector is the midpoint of the
*clamped* `(beg, end)` pair over `sf` (with `step` replaced by `1/sf` when
`step = 0`, built into `MT.step'`), and both clamped endpoints always lie
in `[0, n-1]`.  The boundary-shift consequence holds whenever the clamping
*actually modifies* an endpoint (for the first grid point the lower clamp
fires iff `halfdur * sf ≥ 1`): then the first (resp. last) output time
differs from its unclamped grid point.  Merely having `halfdur * sf`
exceed the margin (e.g. `halfdur * sf = 1/2` at the start) does *not*
shift the time, because truncation toward zero absorbs sub-sample
overhangs — see the counterexample. -/
theorem C6_reported_times (p : MT) (hn : 2 ≤ p.n) (hsf : 0 < p.sf)
    (hw : 0 ≤ p.window) :
    (∀ i, i < p.gridLen →
        p.times.getD i 0 = ((p.beg i + p.end' i : ℤ) : ℚ) / 2 / p.sf) ∧
      (∀ i, i < p.gridLen →
        0 ≤ p.beg i ∧ p.beg i ≤ p.last ∧ 0 ≤ p.end' i ∧ p.end' i ≤ p.last) ∧
      (0 < p.gridLen → npTrunc ((p.gridPt 0 - p.halfdur) * p.sf) < 0 →
        p.gridPt 0 < p.times.getD 0 0) ∧
      (0 < p.gridLen →
        p.last < npTrunc ((p.gridPt (p.gridLen - 1) + p.halfdur) * p.sf) →
        p.times.getD (p.gridLen - 1) 0 ≠ p.gridPt (p.gridLen - 1)) := by
  have hh0 : 0 ≤ p.halfdur := by
    rw [MT.halfdur]
    linarith
  refine ⟨?_, ?_, ?_, ?_⟩
  · intro i hi
    rw [MT.times, getD_range_map _ _ i hi]
    rfl
  · intro i hi
    obtain ⟨ht0, htn⟩ := p.gridPt_bounds hsf i hi
    have hlast0 : (0 : ℤ) ≤ p.last := by
      rw [MT.last]
      omega
    have hmono : npTrunc ((p.gridPt i - p.halfdur) * p.sf) ≤ npTrunc (p.gridPt i * p.sf) :=
      npTrunc_mono (mul_le_mul_of_nonneg_right (by linarith) hsf.le)
    have hfl : npTrunc (p.gridPt i * p.sf) ≤ p.last := by
      rw [npTrunc_of_nonneg (mul_nonneg ht0 hsf.le), MT.last]
      have := Int.floor_lt.mpr (show p.gridPt i * p.sf < ((p.n : ℤ) : ℚ) by exact_mod_cast htn)
      omega
    refine ⟨le_max_left _ _, ?_, ?_, min_le_right _ _⟩
    · rw [MT.beg]
      exact max_le hlast0 (le_trans hmono hfl)
    · rw [MT.end']
      exact le_min (npTrunc_nonneg (by positivity)) hlast0
  · intro hg hbite
    rw [MT.times, getD_range_map _ _ 0 hg, MT.time]
    have hpt0 : p.gridPt 0 = 0 := by simp [MT.gridPt]
    have hbeg : p.beg 0 = 0 := by
      rw [MT.beg]
      omega
    have hhs : 1 ≤ p.halfdur * p.sf := by
      have := npTrunc_neg_le hbite
      rw [hpt0] at this
      nlinarith
    have hend : 1 ≤ p.end' 0 := by
      rw [MT.end', hpt0]
      have harg : (1 : ℚ) ≤ (0 + p.halfdur) * p.sf := by
        rw [zero_add]
        exact hhs
      have h1 : (1 : ℤ) ≤ npTrunc ((0 + p.halfdur) * p.sf) := by
        rw [npTrunc_of_nonneg (by linarith)]
        exact Int.le_floor.mpr (by exact_mod_cast harg)
      have h2 : (1 : ℤ) ≤ p.last := by
        rw [MT.last]
        omega
      omega
    rw [hpt0, hbeg]
    have : (0 : ℚ) < ((0 + p.end' 0 : ℤ) : ℚ) := by
      push_cast
      rw [zero_add]
      exact_mod_cast hend
    positivity
  · intro hg hbite heq
    set L := p.gridLen - 1 with hL
    have hLlt : L < p.gridLen := by omega
    obtain ⟨ht0, htn⟩ := p.gridPt_bounds hsf L hLlt
    have hargB : 0 ≤ (p.gridPt L + p.halfdur) * p.sf := by positivity
    rw [npTrunc_of_nonneg hargB] at hbite
    have hBn : ((p.n : ℚ)) ≤ (p.gridPt L + p.halfdur) * p.sf := by
      have h1 : (p.n : ℤ) ≤ ⌊(p.gridPt L + p.halfdur) * p.sf⌋ := by
        rw [MT.last] at hbite
        omega
      calc ((p.n : ℚ)) ≤ (⌊(p.gridPt L + p.halfdur) * p.sf⌋ : ℚ) := by exact_mod_cast h1
        _ ≤ _ := Int.floor_le _
    have hEnd : p.end' L = p.last := by
      rw [MT.end', npTrunc_of_nonneg hargB]
      rw [MT.last] at hbite ⊢
      omega
    rw [MT.times, getD_range_map _ _ L hLlt, MT.time, hEnd, MT.last] at heq
    rw [div_div, div_eq_iff (by positivity)] at heq
    push_cast at heq
    have hhsf : (p.n : ℚ) - p.gridPt L * p.sf ≤ p.halfdur * p.sf := by nlinarith
    by_cases hA : 0 ≤ (p.gridPt L - p.halfdur) * p.sf
    · have hAf : npTrunc ((p.gridPt L - p.halfdur) * p.sf)
          = ⌊(p.gridPt L - p.halfdur) * p.sf⌋ := npTrunc_of_nonneg hA
      have hbegA : p.beg L = ⌊(p.gridPt L - p.halfdur) * p.sf⌋ := by
        rw [MT.beg, hAf]
        have := Int.floor_nonneg.mpr hA
        omega
      have hfle : ((⌊(p.gridPt L - p.halfdur) * p.sf⌋ : ℤ) : ℚ)
          ≤ (p.gridPt L - p.halfdur) * p.sf := Int.floor_le _
      rw [hbegA] at heq
      nlinarith
    · push_neg at hA
      have hbeg0 : p.beg L = 0 := by
        rw [MT.beg]
        have : npTrunc ((p.gridPt L - p.halfdur) * p.sf) ≤ 0 := by
          rw [npTrunc, if_pos hA]
          exact Int.ceil_le.mpr (by exact_mod_cast hA.le)
        omega
      rw [hbeg0] at heq
      norm_num at heq
      rcases Nat.eq_zero_or_pos L with hL0 | hL1
      · rw [hL0] at heq
        simp [MT.gridPt] at heq
        have : (p.n : ℚ) = 1 := by linarith
        have : p.n = 1 := by exact_mod_cast this
        omega
      · have hsp : 0 < p.step' := p.step'_pos hsf hg
        have htstep : p.step' ≤ p.gridPt L := by
          rw [MT.gridPt]
          calc p.step' = 1 * p.step' := (one_mul _).symm
            _ ≤ (L : ℚ) * p.step' := by
                exact mul_le_mul_of_nonneg_right (by exact_mod_cast hL1) hsp.le
        have hceil : (⌈p.total_dur / p.step'⌉ : ℤ) = (L : ℤ) + 1 := by
          rw [MT.gridLen] at hg hL
          omega
        have htotal : p.total_dur ≤ ((L : ℚ) + 1) * p.step' := by
          have h1 : p.total_dur / p.step' ≤ ((L : ℚ) + 1) := by
            have := Int.ceil_le.mp (le_of_eq hceil)
            exact_mod_cast this
          calc p.total_dur = p.total_dur / p.step' * p.step' :=
                (div_mul_cancel₀ _ (ne_of_gt hsp)).symm
            _ ≤ ((L : ℚ) + 1) * p.step' := mul_le_mul_of_nonneg_right h1 hsp.le
        have hnle : (p.n : ℚ) ≤ (p.gridPt L + p.step') * p.sf := by
          have h2 : (p.n : ℚ) = p.total_dur * p.sf := by
            rw [MT.total_dur]
            field_simp
          rw [h2, MT.gridPt]
          have h3 : ((L : ℚ) + 1) * p.step' = (L : ℚ) * p.step' + p.step' := by ring
          nlinarith
        nlinarith [mul_le_mul_of_nonneg_right htstep hsf.le]

/-- Claim C6 witness: `n = 10`, `sf = 1`, `window = 4`, `step = 9`; the
time-vector formula holds at every grid point. -/
theorem C6_reported_times_witness :
    (2 ≤ (MT.mk 10 1 4 9).n ∧ 0 < (MT.mk 10 1 4 9).sf ∧
        0 ≤ (MT.mk 10 1 4 9).window) ∧
      ∀ i, i < (MT.mk 10 1 4 9).gridLen →
        (MT.mk 10 1 4 9).times.getD i 0
          = (((MT.mk 10 1 4 9).beg i + (MT.mk 10 1 4 9).end' i : ℤ) : ℚ) / 2
            / (MT.mk 10 1 4 9).sf :=
  ⟨⟨by norm_num, by norm_num, by norm_num⟩,
    (C6_reported_times (MT.mk 10 1 4 9) (by norm_num) (by norm_num) (by norm_num)).1⟩

end Yasa
